import Mathlib

/-!
Verification development for the document-review-rag repository.

Part 1 embeds `src/chunking/text_chunker.py` (class `TextChunker`).
Part 2 embeds `src/utils/file_tracker.py` (class `FileTracker`).

Python strings are modelled as `List Char`; Python machine-level details
(file system, clocks, hashing) enter as explicit parameters carrying the
outcome of the corresponding call (`Except` for calls that may raise).
-/

/-- Python exception classes that matter for the tracker:
`OSError` from `os.stat`, `IOError` from reading a file. -/
inductive PyExn
  | oserror
  | ioerror
deriving DecidableEq, Repr

/-- The only exception the chunker itself can raise:
`ValueError` from `range(0, n, 0)` when the character-fallback stride is zero. -/
inductive PyErr
  | valueError
deriving DecidableEq, Repr

deriving instance DecidableEq for Except

/-- `leadsWith sep l = true` iff `sep` occurs at the start of `l`
(Python `l.startswith(sep)` on lists of characters). -/
def leadsWith : List Char → List Char → Bool
  | [], _ => true
  | _ :: _, [] => false
  | a :: as, b :: bs => a == b && leadsWith as bs

/-- `containsSeq sep l = true` iff `sep` occurs contiguously somewhere in `l`
(Python `sep in l`). -/
def containsSeq (sep : List Char) : List Char → Bool
  | [] => sep.isEmpty
  | c :: rest => leadsWith sep (c :: rest) || containsSeq sep rest

/-- Fuel-driven worker for `pySplit`; `acc` holds the current part reversed.
One unit of fuel is spent per character examined, so `fuel = text.length`
always suffices (each step consumes at least one character). -/
def pySplitAux (sep : List Char) : Nat → List Char → List Char → List (List Char)
  | 0 => fun text acc => [acc.reverse ++ text]
  | fuel + 1 => fun text acc =>
    match text with
    | [] => [acc.reverse]
    | c :: rest =>
      if leadsWith sep (c :: rest) then
        acc.reverse :: pySplitAux sep fuel ((c :: rest).drop sep.length) []
      else
        pySplitAux sep fuel rest (c :: acc)

/-- Python `text.split(sep)` for a non-empty separator `sep`: splits `text` at
each non-overlapping leftmost occurrence of `sep`. -/
def pySplit (sep text : List Char) : List (List Char) :=
  pySplitAux sep text.length text []

/-- Python `str.strip()`: remove leading and trailing whitespace. -/
def pyStrip (l : List Char) : List Char :=
  ((l.dropWhile Char.isWhitespace).reverse.dropWhile Char.isWhitespace).reverse

/-- The separator hierarchy from `TextChunker.__init__`:
`["\n\n", "\n", ". ", "! ", "? ", " ", ""]`. -/
def pySeparators : List (List Char) :=
  [['\n', '\n'], ['\n'], ['.', ' '], ['!', ' '], ['?', ' '], [' '], []]

/-- `TextChunker` configuration state, exactly the fields set by `__init__`
(which performs no validation; Python defaults are 1000 and 200). -/
structure TextChunker where
  chunk_size : Nat
  chunk_overlap : Nat
  separators : List (List Char)
deriving DecidableEq, Repr

/-- `TextChunker.__init__`: stores the two sizes and the separator list.
There is no check relating `chunk_overlap` to `chunk_size` and no raise path. -/
def TextChunker.init (chunk_size chunk_overlap : Nat) : TextChunker :=
  { chunk_size := chunk_size, chunk_overlap := chunk_overlap, separators := pySeparators }

/-- The separator the `for separator in self.separators` loop commits to:
the first entry that occurs in `text`; `none` stands for the empty-string
entry, which selects the character-level fallback. -/
def chooseSep : List (List Char) → List Char → Option (List Char)
  | [] => fun _ => none
  | s :: rest => fun text =>
    if s.isEmpty then none
    else if containsSeq s text then some s
    else chooseSep rest text

/-- The character-level fallback (`separator == ""` branch of `_split_text`):
`for i in range(0, len(text), chunk_size - chunk_overlap): chunk = text[i:i+chunk_size]`.
Python raises `ValueError` when the range step is zero (`chunk_size == chunk_overlap`)
and produces an empty range when the step is negative (`chunk_size < chunk_overlap`). -/
def charFallback (cs co : Nat) (text : List Char) : Except PyErr (List (List Char)) :=
  if cs ≤ co then
    if cs = co then Except.error PyErr.valueError else Except.ok []
  else
    let stride := cs - co
    Except.ok (((List.range ((text.length + stride - 1) / stride)).map
      (fun k => (text.drop (k * stride)).take cs)).filter (fun ch => !ch.isEmpty))

/-- The `# Add overlap` post-pass of `_split_text`: when `chunk_overlap > 0` and
more than one chunk resulted, keep the first chunk and prefix each later chunk
with the last `chunk_overlap` characters of the previous ORIGINAL chunk plus a
single space. -/
def overlapPass (co : Nat) (chunks : List (List Char)) : List (List Char) :=
  if 0 < co ∧ 1 < chunks.length then
    match chunks with
    | [] => []
    | c0 :: rest =>
      c0 :: (List.zip (c0 :: rest) rest).map (fun pc =>
        (if co < pc.1.length then pc.1.drop (pc.1.length - co) else pc.1) ++ (' ' :: pc.2))
  else chunks

/-- One step of the greedy packing loop of `_split_text`, reified: a `buf` is a
raw (pre-`strip`) buffer flushed by the loop, a `big` is a part longer than
`chunk_size` that the code re-splits recursively at that position. -/
inductive Seg
  | buf : List Char → Seg
  | big : List Char → Seg
deriving DecidableEq, Repr

/-- The greedy packing loop of `_split_text` over the parts of the chosen
separator: append `part + sep` to the running buffer while it fits, otherwise
flush the buffer (if non-empty); an oversized part is recorded as a `big`
segment at that position (the code recurses there, resetting the buffer),
otherwise the part starts the next buffer. -/
def packSeg (cs : Nat) (sep : List Char) : List (List Char) → List Char → List Seg
  | [], cur => if cur.isEmpty then [] else [Seg.buf cur]
  | part :: rest, cur =>
    if cur.length + part.length + sep.length ≤ cs then
      packSeg cs sep rest (cur ++ part ++ sep)
    else
      (if cur.isEmpty then ([] : List Seg) else [Seg.buf cur]) ++
      (if cs < part.length then Seg.big part :: packSeg cs sep rest []
       else packSeg cs sep rest (part ++ sep))

/-- Expand the segment list into chunk lists: a flushed buffer becomes the
chunk `buf.strip()`; an oversized part is expanded by the recursive call `f`
(the full `_split_text`, supplied by the caller). Errors from `f` propagate. -/
def expandSegs (f : List Char → Except PyErr (List (List Char))) :
    List Seg → Except PyErr (List (List Char))
  | [] => Except.ok []
  | Seg.buf b :: rest => (expandSegs f rest).map (fun t => pyStrip b :: t)
  | Seg.big p :: rest =>
    match f p with
    | Except.error e => Except.error e
    | Except.ok sub => (expandSegs f rest).map (fun t => sub ++ t)

/-- Variant of `expandSegs` that keeps flushed buffers un-stripped; used to
state the spec's property about the chunk sequence "before per-chunk
whitespace trimming". -/
def expandSegsRaw (f : List Char → Except PyErr (List (List Char))) :
    List Seg → Except PyErr (List (List Char))
  | [] => Except.ok []
  | Seg.buf b :: rest => (expandSegsRaw f rest).map (fun t => b :: t)
  | Seg.big p :: rest =>
    match f p with
    | Except.error e => Except.error e
    | Except.ok sub => (expandSegsRaw f rest).map (fun t => sub ++ t)

/-- `_split_text` up to (but not including) the top-level overlap post-pass:
the value of the local `chunks` variable just before the `# Add overlap`
block. Recursive calls on oversized parts are the FULL `_split_text`
(including that call's own overlap pass), exactly as in the source. Fuel
decreases on each recursive call; every part of a split is strictly shorter
than its text, so the initial fuel `text.length + 1` is never exhausted. -/
def splitCore (c : TextChunker) : Nat → List Char → Except PyErr (List (List Char))
  | 0 => fun _ => Except.ok []
  | fuel + 1 => fun text =>
    if text.length ≤ c.chunk_size then Except.ok [text]
    else
      match chooseSep c.separators text with
      | none => charFallback c.chunk_size c.chunk_overlap text
      | some sep =>
        expandSegs (fun p => (splitCore c fuel p).map (overlapPass c.chunk_overlap))
          (packSeg c.chunk_size sep (pySplit sep text) [])

/-- Un-stripped, pre-overlap variant of `splitCore`: identical control flow,
but flushed buffers are not stripped and no overlap pass is applied anywhere.
This is the idealized stage named by the spec ("the un-stripped chunks,
ignoring the overlap step"). -/
def splitCoreRaw (c : TextChunker) : Nat → List Char → Except PyErr (List (List Char))
  | 0 => fun _ => Except.ok []
  | fuel + 1 => fun text =>
    if text.length ≤ c.chunk_size then Except.ok [text]
    else
      match chooseSep c.separators text with
      | none => charFallback c.chunk_size c.chunk_overlap text
      | some sep =>
        expandSegsRaw (fun p => splitCoreRaw c fuel p)
          (packSeg c.chunk_size sep (pySplit sep text) [])

/-- The chunk list of `_split_text` immediately before the top-level
`# Add overlap` block. -/
def TextChunker.preChunks (c : TextChunker) (text : List Char) :
    Except PyErr (List (List Char)) :=
  splitCore c (text.length + 1) text

/-- The un-stripped, pre-overlap chunk sequence (see `splitCoreRaw`). -/
def TextChunker.preRawChunks (c : TextChunker) (text : List Char) :
    Except PyErr (List (List Char)) :=
  splitCoreRaw c (text.length + 1) text

/-- `TextChunker._split_text`: the pre-overlap chunks followed by the overlap
post-pass. -/
def TextChunker.split_text (c : TextChunker) (text : List Char) :
    Except PyErr (List (List Char)) :=
  (splitCore c (text.length + 1) text).map (overlapPass c.chunk_overlap)

/-- Values stored in a chunk record / metadata dict: chunk text (a Python
string) or a Python int (indices and counts are non-negative here). -/
inductive PyVal
  | s : List Char → PyVal
  | n : Nat → PyVal
deriving DecidableEq, Repr

/-- First-match lookup in an association list modelling a Python dict
(`d.get(k)` / `d[k]`); keys of a Python dict are unique, so first match is
the match. -/
def dictGet {β : Type} : List (String × β) → String → Option β
  | [], _ => none
  | kv :: rest, k => if kv.1 = k then some kv.2 else dictGet rest k

/-- Python dict assignment `d[k] = v`: replace the value in place if the key is
present (keeping its position, as Python dicts do), otherwise append the new
pair at the end (insertion order). -/
def dictInsert {β : Type} : List (String × β) → String → β → List (String × β)
  | [], k, v => [(k, v)]
  | kv :: rest, k, v => if kv.1 = k then (k, v) :: rest else kv :: dictInsert rest k v

/-- Python `d.update(meta)`: assign each pair of `meta` into `d` left to right. -/
def pyDictUpdate {β : Type} : List (String × β) → List (String × β) → List (String × β)
  | m, [] => m
  | m, kv :: rest => pyDictUpdate (dictInsert m kv.1 kv.2) rest

/-- Python `enumerate` starting at `n`. -/
def enumFromN {α : Type} (n : Nat) : List α → List (Nat × α)
  | [] => []
  | a :: as => (n, a) :: enumFromN (n + 1) as

/-- `TextChunker.chunk_text`: split the text, then build one record per chunk
with keys `text`, `chunk_index`, `total_chunks`, and (when `metadata` is a
non-empty dict) `chunk_data.update(metadata)` — which OVERWRITES colliding
keys, exactly like the Python `dict.update`. -/
def TextChunker.chunk_text (c : TextChunker) (text : List Char)
    (metadata : List (String × PyVal)) :
    Except PyErr (List (List (String × PyVal))) :=
  (c.split_text text).map (fun chunks =>
    (enumFromN 0 chunks).map (fun ic =>
      let chunk_data : List (String × PyVal) :=
        [(("text"), PyVal.s ic.2), (("chunk_index"), PyVal.n ic.1),
         (("total_chunks"), PyVal.n chunks.length)]
      if metadata.isEmpty then chunk_data else pyDictUpdate chunk_data metadata))

/-!  Part 2: `FileTracker` (src/utils/file_tracker.py).

The tracker object is modelled as the pair of its in-memory mapping
`processed_files` (a Python dict: an insertion-ordered association list) and
the persisted tracking document `disk` (what `_save_tracking_data` last
wrote).  `os.stat`, `_get_file_hash` and `datetime.now()` outcomes enter as
parameters; operations return the tracker state after the call together with
their result, so that frame properties are statable. -/

/-- Result of `_get_file_info` (`os.stat`): `st_size`, `st_mtime`, and the
derived ISO date string.  Equality of `st_mtime` is all the code ever uses,
so its float type is modelled by `Int`. -/
structure FileInfo where
  size : Int
  modified_time : Int
  modified_date : String
deriving DecidableEq, Repr

/-- A record of `processed_files` as written by `mark_processed`. -/
structure FileRecord where
  size : Int
  modified_time : Int
  modified_date : String
  processed_date : String
  chunks_count : Nat
  content_hash : String
deriving DecidableEq, Repr

/-- The tracker state: tracking-file path, in-memory mapping, persisted doc. -/
structure FileTracker where
  tracking_file : String
  processed_files : List (String × FileRecord)
  disk : List (String × FileRecord)
deriving DecidableEq, Repr

/-- Worker for `basename`: keep the characters after the last `/`. -/
def baseAux : List Char → List Char → List Char
  | [], acc => acc.reverse
  | c :: rest, acc => if c = '/' then baseAux rest [] else baseAux rest (c :: acc)

/-- `os.path.basename` (POSIX): everything after the last `/`. -/
def basename (p : String) : String :=
  String.mk (baseAux p.data [])

/-- Worker for `splitext_ext`: `seen` records whether a non-dot character has
occurred so far; `best` is the suffix starting at the last qualifying dot. -/
def extAux : List Char → Bool → Option (List Char) → Option (List Char)
  | [], _, best => best
  | c :: rest, seen, best =>
    if c = '.' then
      if seen then extAux rest seen (some (c :: rest)) else extAux rest seen best
    else extAux rest true best

/-- `os.path.splitext(filename)[1]`: the suffix from the last dot, provided a
non-dot character precedes it (so `.txt` has no extension but `a.txt` does). -/
def splitext_ext (s : String) : String :=
  String.mk ((extAux s.data false none).getD [])

/-- `FileTracker.is_processed`: false for a filename absent from the store or
when `os.stat` raises `OSError`; otherwise true iff stored size and stored
modified time both equal the current ones. -/
def FileTracker.is_processed (st : FileTracker) (file_path : String)
    (stat : Except PyExn FileInfo) : FileTracker × Bool :=
  (st,
    match dictGet st.processed_files (basename file_path) with
    | none => false
    | some stored =>
      match stat with
      | Except.error _ => false
      | Except.ok cur =>
        !(cur.size != stored.size || cur.modified_time != stored.modified_time))

/-- `FileTracker.is_updated`: false for a filename absent from the store (it is
new, not updated) and when `os.stat` raises; otherwise true iff stored size or
stored modified time differs from the current one. -/
def FileTracker.is_updated (st : FileTracker) (file_path : String)
    (stat : Except PyExn FileInfo) : FileTracker × Bool :=
  (st,
    match dictGet st.processed_files (basename file_path) with
    | none => false
    | some stored =>
      match stat with
      | Except.error _ => false
      | Except.ok cur =>
        cur.size != stored.size || cur.modified_time != stored.modified_time)

/-- `FileTracker.mark_processed`: stat the file, hash its content, then store
the record under the basename and persist the whole mapping.  A raise from
`os.stat` or from the hash read escapes BEFORE any assignment, leaving both
the mapping and the persisted document untouched (the `Option PyExn` result
is the escaped exception). -/
def FileTracker.mark_processed (st : FileTracker) (file_path : String)
    (chunks_count : Nat) (stat : Except PyExn FileInfo)
    (hash : Except PyExn String) (now : String) : FileTracker × Option PyExn :=
  match stat with
  | Except.error e => (st, some e)
  | Except.ok info =>
    match hash with
    | Except.error e => (st, some e)
    | Except.ok h =>
      let rcd : FileRecord :=
        { size := info.size, modified_time := info.modified_time,
          modified_date := info.modified_date, processed_date := now,
          chunks_count := chunks_count, content_hash := h }
      let mem := dictInsert st.processed_files (basename file_path) rcd
      ({ st with processed_files := mem, disk := mem }, none)

/-- `FileTracker.get_processed_info`: `processed_files.get(basename(path))`. -/
def FileTracker.get_processed_info (st : FileTracker) (file_path : String) :
    FileTracker × Option FileRecord :=
  (st, dictGet st.processed_files (basename file_path))

/-- `FileTracker.get_stats`: total files, total chunks, tracking-file path. -/
def FileTracker.get_stats (st : FileTracker) : FileTracker × (Nat × Nat × String) :=
  (st, (st.processed_files.length,
        (st.processed_files.map (fun kv => kv.2.chunks_count)).sum,
        st.tracking_file))

/-- `FileTracker.remove_file`: delete the record (if present) and persist. -/
def FileTracker.remove_file (st : FileTracker) (file_path : String) : FileTracker :=
  if (dictGet st.processed_files (basename file_path)).isSome then
    let mem := st.processed_files.filter (fun kv => kv.1 != basename file_path)
    { st with processed_files := mem, disk := mem }
  else st

/-- `FileTracker.clear_tracking`: reset the mapping and persist the empty doc. -/
def FileTracker.clear_tracking (st : FileTracker) : FileTracker :=
  { st with processed_files := [], disk := [] }

/-- `FileTracker.find_duplicate_by_hash`: hash the queried file, then return
the first OTHER stored record (in dict iteration order, i.e. insertion order)
whose `content_hash` equals it, as `(filename, extension)`.  The whole body is
wrapped in `try/except Exception`, so a raise from hashing is caught, a
warning is printed, and `None` is returned. -/
def FileTracker.find_duplicate_by_hash (st : FileTracker) (file_path : String)
    (hash : Except PyExn String) : FileTracker × Option (String × String) :=
  (st,
    match hash with
    | Except.error _ => none
    | Except.ok current_hash =>
      match st.processed_files.find? (fun kv =>
          kv.1 != basename file_path && kv.2.content_hash == current_hash) with
      | some kv => some (kv.1, splitext_ext kv.1)
      | none => none)

/-- The class "new" from the spec's trichotomy: the basename is absent from the
tracking store (the membership test both predicates perform first). -/
def FileTracker.is_new (st : FileTracker) (file_path : String) : Bool :=
  (dictGet st.processed_files (basename file_path)).isNone

/-- `exactlyOne3 a b c` is true iff exactly one of the three booleans is. -/
def exactlyOne3 (a b c : Bool) : Bool :=
  (a && !b && !c) || (!a && b && !c) || (!a && !b && c)

/-! Helper lemmas about the embedded operations. -/

theorem leadsWith_append : ∀ (sep l : List Char), leadsWith sep l = true →
    sep ++ l.drop sep.length = l
  | [], l, _ => by simp
  | a :: as, [], h => by simp [leadsWith] at h
  | a :: as, b :: bs, h => by
    simp only [leadsWith, Bool.and_eq_true, beq_iff_eq] at h
    simp only [List.length_cons, List.drop_succ_cons, List.cons_append, h.1]
    exact congrArg (b :: ·) (leadsWith_append as bs h.2)

theorem leadsWith_ne_nil {sep l : List Char} (hsep : sep ≠ [])
    (h : leadsWith sep l = true) : l ≠ [] := by
  intro hl
  subst hl
  cases sep with
  | nil => exact hsep rfl
  | cons a as => simp [leadsWith] at h

theorem pySplitAux_join {sep : List Char} (hsep : sep ≠ []) :
    ∀ (fuel : Nat) (text acc : List Char), text.length ≤ fuel →
      ((pySplitAux sep fuel text acc).map (fun p => p ++ sep)).flatten =
        acc.reverse ++ text ++ sep
  | 0, text, acc, hf => by
    have ht : text = [] := List.eq_nil_of_length_eq_zero (Nat.le_zero.mp hf)
    subst ht
    simp [pySplitAux]
  | fuel + 1, text, acc, hf => by
    match text with
    | [] => simp [pySplitAux]
    | c :: rest =>
      by_cases hlw : leadsWith sep (c :: rest) = true
      · have hlen : ((c :: rest).drop sep.length).length ≤ fuel := by
          have hs : 1 ≤ sep.length := by
            cases sep with
            | nil => exact absurd rfl hsep
            | cons x xs => simp
          simp only [List.length_drop, List.length_cons]
          simp only [List.length_cons] at hf
          omega
        have ih := pySplitAux_join hsep fuel ((c :: rest).drop sep.length) [] hlen
        have happ := leadsWith_append sep (c :: rest) hlw
        simp only [pySplitAux, hlw, if_true, List.map_cons, List.flatten_cons, ih,
          List.reverse_nil, List.nil_append]
        calc (acc.reverse ++ sep) ++ ((c :: rest).drop sep.length ++ sep)
            = acc.reverse ++ ((sep ++ (c :: rest).drop sep.length) ++ sep) := by
              simp [List.append_assoc]
          _ = acc.reverse ++ ((c :: rest) ++ sep) := by rw [happ]
          _ = acc.reverse ++ (c :: rest) ++ sep := by simp [List.append_assoc]
      · have hlen : rest.length ≤ fuel := by
          simp only [List.length_cons] at hf
          omega
        have ih := pySplitAux_join hsep fuel rest (c :: acc) hlen
        simp only [pySplitAux, hlw, if_false, Bool.false_eq_true, ih,
          List.reverse_cons]
        simp [List.append_assoc]

theorem pySplit_join {sep : List Char} (hsep : sep ≠ []) (text : List Char) :
    ((pySplit sep text).map (fun p => p ++ sep)).flatten = text ++ sep := by
  have h := pySplitAux_join hsep text.length text [] (Nat.le_refl _)
  simpa [pySplit] using h

theorem chooseSep_some : ∀ (seps : List (List Char)) (text sep : List Char),
    chooseSep seps text = some sep →
    sep ∈ seps ∧ sep ≠ [] ∧ containsSeq sep text = true
  | [], text, sep, h => by simp [chooseSep] at h
  | s :: rest, text, sep, h => by
    by_cases hs : s.isEmpty
    · simp [chooseSep, hs] at h
    · by_cases hc : containsSeq s text = true
      · have : s = sep := by
          simp [chooseSep, hs, hc] at h
          exact h
        subst this
        refine ⟨List.mem_cons_self _ _, ?_, hc⟩
        intro hnil
        subst hnil
        simp at hs
      · have h' : chooseSep rest text = some sep := by
          simpa [chooseSep, hs, hc] using h
        obtain ⟨hm, hne, hcs⟩ := chooseSep_some rest text sep h'
        exact ⟨List.mem_cons_of_mem _ hm, hne, hcs⟩

theorem pySeparators_len : ∀ s ∈ pySeparators, s.length ≤ 2 := by decide

theorem pyStrip_length_le (l : List Char) : (pyStrip l).length ≤ l.length := by
  unfold pyStrip
  calc ((l.dropWhile Char.isWhitespace).reverse.dropWhile Char.isWhitespace).reverse.length
      = ((l.dropWhile Char.isWhitespace).reverse.dropWhile Char.isWhitespace).length := by
        rw [List.length_reverse]
    _ ≤ (l.dropWhile Char.isWhitespace).reverse.length :=
        (List.dropWhile_sublist _).length_le
    _ = (l.dropWhile Char.isWhitespace).length := by rw [List.length_reverse]
    _ ≤ l.length := (List.dropWhile_sublist _).length_le

theorem packSeg_all_small (cs : Nat) (sep : List Char) :
    ∀ (parts : List (List Char)) (cur : List Char),
      (∀ p ∈ parts, p.length ≤ cs) →
      cur.length ≤ cs + sep.length →
      ∃ bufs : List (List Char),
        packSeg cs sep parts cur = bufs.map Seg.buf ∧
        bufs.flatten = cur ++ (parts.map (fun p => p ++ sep)).flatten ∧
        ∀ b ∈ bufs, b.length ≤ cs + sep.length
  | [], cur, _, hcur => by
    by_cases hc : cur.isEmpty
    · refine ⟨[], ?_, ?_, ?_⟩
      · simp [packSeg, hc]
      · have : cur = [] := by
          cases cur with
          | nil => rfl
          | cons a as => simp [List.isEmpty] at hc
        simp [this]
      · intro b hb
        simp at hb
    · refine ⟨[cur], ?_, ?_, ?_⟩
      · simp [packSeg, hc]
      · simp
      · intro b hb
        simp at hb
        subst hb
        exact hcur
  | part :: rest, cur, hsmall, hcur => by
    have hrest : ∀ p ∈ rest, p.length ≤ cs := fun p hp =>
      hsmall p (List.mem_cons_of_mem _ hp)
    have hpart : part.length ≤ cs := hsmall part (List.mem_cons_self _ _)
    by_cases hfit : cur.length + part.length + sep.length ≤ cs
    · have hcur' : (cur ++ part ++ sep).length ≤ cs + sep.length := by
        simp only [List.length_append]
        omega
      obtain ⟨bufs, heq, hjoin, hlen⟩ :=
        packSeg_all_small cs sep rest (cur ++ part ++ sep) hrest hcur'
      rw [List.append_assoc] at heq
      refine ⟨bufs, ?_, ?_, hlen⟩
      · simp [packSeg, hfit, heq]
      · rw [hjoin]
        simp [List.append_assoc]
    · have hbig : ¬ cs < part.length := by omega
      have hps : (part ++ sep).length ≤ cs + sep.length := by
        simp only [List.length_append]
        omega
      obtain ⟨bufs, heq, hjoin, hlen⟩ :=
        packSeg_all_small cs sep rest (part ++ sep) hrest hps
      by_cases hc : cur.isEmpty
      · have hcurnil : cur = [] := by
          cases cur with
          | nil => rfl
          | cons a as => simp [List.isEmpty] at hc
        refine ⟨bufs, ?_, ?_, hlen⟩
        · simp [packSeg, hfit, hc, hbig, heq]
        · rw [hjoin, hcurnil]
          simp [List.append_assoc]
      · refine ⟨cur :: bufs, ?_, ?_, ?_⟩
        · simp [packSeg, hfit, hc, hbig, heq]
        · simp only [List.flatten_cons, hjoin]
          simp [List.append_assoc]
        · intro b hb
          rcases List.mem_cons.mp hb with hb | hb
          · subst hb
            exact hcur
          · exact hlen b hb

theorem expandSegsRaw_bufs (f : List Char → Except PyErr (List (List Char))) :
    ∀ bufs : List (List Char), expandSegsRaw f (bufs.map Seg.buf) = Except.ok bufs
  | [] => rfl
  | b :: rest => by
    simp [expandSegsRaw, expandSegsRaw_bufs f rest, Except.map]

theorem expandSegs_bufs (f : List Char → Except PyErr (List (List Char))) :
    ∀ bufs : List (List Char),
      expandSegs f (bufs.map Seg.buf) = Except.ok (bufs.map pyStrip)
  | [] => rfl
  | b :: rest => by
    simp [expandSegs, expandSegs_bufs f rest, Except.map]

/-- `e.isOk`-style discriminator for `Except` used in claim statements. -/
def exOk {ε α : Type} : Except ε α → Bool
  | Except.ok _ => true
  | Except.error _ => false

/-! Claim theorems. -/

/-- C1: the claim says constructing a `TextChunker` with
`chunkOverlap ≥ maxChunkSize` fails fast at construction.  The code performs
no such validation: `__init__` stores the fields and returns a usable object,
and the misconfiguration is first discovered inside `split` — as a
`ValueError` from `range(0, n, 0)` when `chunk_overlap == chunk_size`, and as
a silent empty result when `chunk_overlap > chunk_size`. -/
theorem c1_misconfiguration_not_rejected_at_construction :
    (TextChunker.init 10 10).chunk_size = 10 ∧
    (TextChunker.init 10 10).chunk_overlap = 10 ∧
    TextChunker.split_text (TextChunker.init 10 10) (List.replicate 25 ('a')) =
      Except.error PyErr.valueError ∧
    TextChunker.split_text (TextChunker.init 10 12) (List.replicate 25 ('a')) =
      Except.ok [] :=
  ⟨rfl, rfl, by decide, by decide⟩

/-- Concrete one-record tracker state used by the C2 theorems. -/
def c2State : FileTracker :=
  { tracking_file := ("data/processed_files.json"),
    processed_files := [(("a.txt"),
      { size := 100, modified_time := 200, modified_date := ("d"),
        processed_date := ("p"), chunks_count := 3, content_hash := ("h") })],
    disk := [(("a.txt"),
      { size := 100, modified_time := 200, modified_date := ("d"),
        processed_date := ("p"), chunks_count := 3, content_hash := ("h") })] }

/-- C2 (counterexample): when hashing raises, `find_duplicate_by_hash` does
NOT propagate the error — the `except Exception` clause catches it and the
caller receives `(state, none)`, byte-for-byte the same observable result as
a successful hash that matches nothing.  The caller cannot observe the
failure, contradicting the claim's first half. -/
theorem c2_error_indistinguishable_from_no_duplicate :
    FileTracker.find_duplicate_by_hash c2State ("b.txt") (Except.error PyExn.ioerror) =
      (c2State, none) ∧
    FileTracker.find_duplicate_by_hash c2State ("b.txt") (Except.ok ("zzz")) =
      (c2State, none) :=
  ⟨rfl, by decide⟩

/-- C2 (amended): a hash I/O error inside `find_duplicate_by_hash` is caught
and suppressed (a warning is printed); the call returns the normal
no-duplicate result `none`, and both the in-memory mapping and the persisted
records are left exactly unchanged (the second half of the claim holds). -/
theorem c2_hash_error_swallowed_store_unchanged (st : FileTracker) (p : String)
    (e : PyExn) :
    FileTracker.find_duplicate_by_hash st p (Except.error e) = (st, none) :=
  rfl

/-- C5: if `mark_processed` fails because `os.stat` or the content-hash read
raises, the tracker is exactly as before the call: no record for any filename
is added, removed or modified, in memory or on disk (the raise happens before
the assignment and before `_save_tracking_data`). -/
theorem c5_mark_processed_failure_leaves_state (st : FileTracker) (p : String)
    (n : Nat) (stat : Except PyExn FileInfo) (hash : Except PyExn String)
    (now : String) (h : exOk stat = false ∨ exOk hash = false) :
    (FileTracker.mark_processed st p n stat hash now).1 = st ∧
    ((FileTracker.mark_processed st p n stat hash now).2).isSome = true := by
  cases stat with
  | error e => exact ⟨rfl, rfl⟩
  | ok info =>
    cases hash with
    | error e => exact ⟨rfl, rfl⟩
    | ok hv =>
      rcases h with h | h <;> simp [exOk] at h

/-- C5 witness: a failing stat call at a concrete state. -/
theorem c5_mark_processed_failure_leaves_state_witness :
    exOk ((Except.error PyExn.oserror : Except PyExn FileInfo)) = false ∧
    (FileTracker.mark_processed c2State ("a.txt") 3
      ((Except.error PyExn.oserror : Except PyExn FileInfo))
      (Except.ok ("h")) ("now")).1 = c2State :=
  ⟨rfl, (c5_mark_processed_failure_leaves_state c2State ("a.txt") 3
    (Except.error PyExn.oserror) (Except.ok ("h")) ("now") (Or.inl rfl)).1⟩

/-- C10: the read-only tracker operations `is_processed`, `is_updated`,
`get_processed_info` and `get_stats` return the tracker state unchanged for
every store state, path and stat outcome: none of their code paths assigns to
`processed_files` or calls `_save_tracking_data` (contrast `mark_processed`,
`remove_file`, `clear_tracking`, which do). -/
theorem c10_reads_leave_state (st : FileTracker) (p : String)
    (stat : Except PyExn FileInfo) :
    (FileTracker.is_processed st p stat).1 = st ∧
    (FileTracker.is_updated st p stat).1 = st ∧
    (FileTracker.get_processed_info st p).1 = st ∧
    (FileTracker.get_stats st).1 = st :=
  ⟨rfl, rfl, rfl, rfl⟩

/-- C6 (counterexample): already in the simplest case — two short paragraphs,
`chunk_size = 3`, no recursion, no overlap — concatenating the un-stripped
pre-overlap chunks yields the input PLUS one extra trailing copy of the
chosen separator, because the greedy loop appends `part + separator` for
every part including the last.  The concatenation is not the original text. -/
theorem c6_concat_not_lossless :
    TextChunker.preRawChunks (TextChunker.init 3 0) (("ab\n\ncd").toList) =
      Except.ok [(("ab\n\n").toList), (("cd\n\n").toList)] ∧
    ([(("ab\n\n").toList), (("cd\n\n").toList)]).flatten = (("ab\n\ncd\n\n").toList) ∧
    (("ab\n\ncd\n\n").toList) ≠ (("ab\n\ncd").toList) :=
  ⟨by decide, by decide, by decide⟩

/-- C6 (amended): whenever a structural separator is chosen and every part of
the split fits within `chunk_size` (so no recursive re-split occurs), the
concatenation of the un-stripped pre-overlap chunks equals the original text
followed by ONE extra trailing copy of the chosen separator — each part
contributes `part ++ sep`, including the last. -/
theorem c6_concat_is_text_plus_separator
    (cs co : Nat) (text sep : List Char) (chunks : List (List Char))
    (hsep : chooseSep pySeparators text = some sep)
    (hsmall : ∀ p ∈ pySplit sep text, p.length ≤ cs)
    (hlong : cs < text.length)
    (hok : TextChunker.preRawChunks (TextChunker.init cs co) text = Except.ok chunks) :
    chunks.flatten = text ++ sep := by
  obtain ⟨hmem, hne, hcontains⟩ := chooseSep_some pySeparators text sep hsep
  obtain ⟨bufs, heq, hjoin, _⟩ :=
    packSeg_all_small cs sep (pySplit sep text) [] hsmall (by simp)
  unfold TextChunker.preRawChunks at hok
  rw [splitCoreRaw] at hok
  simp only [TextChunker.init, Nat.not_le.mpr hlong, if_false] at hok
  simp only [hsep, heq, expandSegsRaw_bufs] at hok
  have hchunks : chunks = bufs := by
    injection hok with hok
    exact hok.symm
  rw [hchunks, hjoin, List.nil_append, pySplit_join hne]

/-- C6 witness: the amended statement at `chunk_size = 3` on `"ab\n\ncd"`. -/
theorem c6_concat_is_text_plus_separator_witness :
    chooseSep pySeparators (("ab\n\ncd").toList) = some (['\n', '\n']) ∧
    (∀ p ∈ pySplit (['\n', '\n']) (("ab\n\ncd").toList), p.length ≤ 3) ∧
    ([(("ab\n\n").toList), (("cd\n\n").toList)]).flatten =
      (("ab\n\ncd").toList) ++ (['\n', '\n']) :=
  ⟨by decide, by decide,
    c6_concat_is_text_plus_separator 3 0 (("ab\n\ncd").toList) (['\n', '\n'])
      ([(("ab\n\n").toList), (("cd\n\n").toList)])
      (by decide) (by decide) (by decide) (by decide)⟩

/-- C7 (counterexample): with the valid configuration `chunk_size = 5`,
`chunk_overlap = 0` and input `"abcde. fghij"`, the pre-overlap chunk
`"abcde."` has length 6 > 5: the flushed buffer carries the appended
separator `". "`, and `strip` does not remove it below `chunk_size`. -/
theorem c7_chunk_exceeds_max_size :
    TextChunker.preChunks (TextChunker.init 5 0) (("abcde. fghij").toList) =
      Except.ok [(("abcde.").toList), (("fghij.").toList)] ∧
    ((("abcde.").toList)).length = 6 ∧
    ¬ ((("abcde.").toList)).length ≤ 5 :=
  ⟨by decide, by decide, by decide⟩

/-- C7 (amended): when a structural separator is chosen and no part exceeds
`chunk_size` (no recursive re-split), every pre-overlap chunk has length at
most `chunk_size + length(separator)` — hence at most `chunk_size + 2`, since
every separator in the hierarchy has length ≤ 2.  The bound `chunk_size`
itself does not hold (see the counterexample). -/
theorem c7_chunks_bounded_by_size_plus_separator
    (cs co : Nat) (text sep : List Char) (chunks : List (List Char))
    (hsep : chooseSep pySeparators text = some sep)
    (hsmall : ∀ p ∈ pySplit sep text, p.length ≤ cs)
    (hok : TextChunker.preChunks (TextChunker.init cs co) text = Except.ok chunks) :
    ∀ ch ∈ chunks, ch.length ≤ cs + sep.length ∧ ch.length ≤ cs + 2 := by
  have hsep2 : sep.length ≤ 2 :=
    pySeparators_len sep (chooseSep_some pySeparators text sep hsep).1
  unfold TextChunker.preChunks at hok
  rw [splitCore] at hok
  by_cases hlen : text.length ≤ cs
  · simp only [TextChunker.init, if_pos hlen] at hok
    have hchunks : chunks = [text] := by
      injection hok with hok
      exact hok.symm
    intro ch hch
    rw [hchunks] at hch
    simp only [List.mem_singleton] at hch
    subst hch
    omega
  · obtain ⟨bufs, heq, _, hblen⟩ :=
      packSeg_all_small cs sep (pySplit sep text) [] hsmall (by simp)
    simp only [TextChunker.init, if_neg hlen] at hok
    simp only [hsep, heq, expandSegs_bufs] at hok
    have hchunks : chunks = bufs.map pyStrip := by
      injection hok with hok
      exact hok.symm
    intro ch hch
    rw [hchunks] at hch
    obtain ⟨b, hb, hbch⟩ := List.mem_map.mp hch
    have h1 : ch.length ≤ b.length := by
      rw [← hbch]
      exact pyStrip_length_le b
    have h2 := hblen b hb
    omega

/-- C7 witness: the amended bound at `chunk_size = 5` on `"abcde. fghij"`. -/
theorem c7_chunks_bounded_by_size_plus_separator_witness :
    chooseSep pySeparators (("abcde. fghij").toList) = some (['.', ' ']) ∧
    ((("abcde.").toList)).length ≤ 5 + 2 :=
  ⟨by decide,
    ((c7_chunks_bounded_by_size_plus_separator 5 0 (("abcde. fghij").toList)
      (['.', ' ']) ([(("abcde.").toList), (("fghij.").toList)])
      (by decide) (by decide) (by decide)) (("abcde.").toList)
      (by decide)).2⟩

theorem find?_first {α : Type} (pred : α → Bool) :
    ∀ (pre : List α) (x : α) (post : List α),
      (∀ y ∈ pre, pred y = false) → pred x = true →
      List.find? pred (pre ++ x :: post) = some x
  | [], x, post, _, hx => by simp [List.find?_cons, hx]
  | y :: pre, x, post, hpre, hx => by
    have hy : pred y = false := hpre y (List.mem_cons_self _ _)
    simp only [List.cons_append, List.find?_cons, hy]
    exact find?_first pred pre x post (fun z hz => hpre z (List.mem_cons_of_mem _ hz)) hx

/-- Record for `a.txt` in the C3 states (content hash `h`). -/
def c3RecA : FileRecord :=
  { size := 1, modified_time := 2, modified_date := ("d"), processed_date := ("p"),
    chunks_count := 1, content_hash := ("h") }

/-- Record for `b.txt` in the C3 states (same content hash `h`). -/
def c3RecB : FileRecord :=
  { size := 1, modified_time := 3, modified_date := ("d"), processed_date := ("p"),
    chunks_count := 1, content_hash := ("h") }

/-- C3 state: `b.txt` was inserted BEFORE `a.txt`; both carry hash `h`. -/
def c3State : FileTracker :=
  { tracking_file := ("t.json"),
    processed_files := [(("b.txt"), c3RecB), (("a.txt"), c3RecA)],
    disk := [(("b.txt"), c3RecB), (("a.txt"), c3RecA)] }

/-- C3 (counterexample): with two matching candidates, the code returns the
one that was INSERTED first (`b.txt`), not the lexicographically first
(`a.txt` < `b.txt`, also a valid candidate) — the scan runs in dict
insertion/iteration order, not in sorted order. -/
theorem c3_not_lexicographic :
    FileTracker.find_duplicate_by_hash c3State ("c.txt") (Except.ok ("h")) =
      (c3State, some (("b.txt"), (".txt"))) ∧
    ((("a.txt")).data < (("b.txt")).data) ∧
    (("a.txt") ≠ basename ("c.txt")) ∧
    dictGet c3State.processed_files ("a.txt") = some c3RecA ∧
    c3RecA.content_hash = ("h") :=
  ⟨by decide, by decide, by decide, by decide, by decide⟩

/-- C3 (amended): `find_duplicate_by_hash` returns the FIRST candidate in the
store's insertion/iteration order whose `content_hash` matches the queried
digest, skipping the queried basename itself.  This is deterministic for a
given store state, but the order is insertion order, not lexicographic. -/
theorem c3_first_match_in_iteration_order (st : FileTracker) (p hsh : String)
    (pre post : List (String × FileRecord)) (fn : String) (r : FileRecord)
    (hsplit : st.processed_files = pre ++ (fn, r) :: post)
    (hfn : fn ≠ basename p) (hr : r.content_hash = hsh)
    (hpre : ∀ kv ∈ pre, kv.1 = basename p ∨ kv.2.content_hash ≠ hsh) :
    FileTracker.find_duplicate_by_hash st p (Except.ok hsh) =
      (st, some (fn, splitext_ext fn)) := by
  unfold FileTracker.find_duplicate_by_hash
  rw [hsplit]
  have hf := find?_first
    (fun kv : String × FileRecord => kv.1 != basename p && kv.2.content_hash == hsh)
    pre (fn, r) post
    (by
      intro y hy
      rcases hpre y hy with h | h
      · simp [h]
      · simp [h])
    (by simp [hfn, hr])
  simp only [hf]

/-- C3 witness: the amended characterization applied to `c3State`. -/
theorem c3_first_match_in_iteration_order_witness :
    (("b.txt") ≠ basename ("c.txt")) ∧
    FileTracker.find_duplicate_by_hash c3State ("c.txt") (Except.ok ("h")) =
      (c3State, some (("b.txt"), splitext_ext ("b.txt"))) :=
  ⟨by decide,
    c3_first_match_in_iteration_order c3State ("c.txt") ("h") []
      [(("a.txt"), c3RecA)] ("b.txt") c3RecB rfl (by decide) rfl
      (by intro kv hkv; simp at hkv)⟩

/-- Stat result matching the stored record of the C4 state. -/
def c4Info : FileInfo :=
  { size := 100, modified_time := 200, modified_date := ("d") }

/-- C4 state: a single tracked file `f.txt`. -/
def c4State : FileTracker :=
  { tracking_file := ("t.json"),
    processed_files := [(("f.txt"),
      { size := 100, modified_time := 200, modified_date := ("d"),
        processed_date := ("p"), chunks_count := 1, content_hash := ("h") })],
    disk := [(("f.txt"),
      { size := 100, modified_time := 200, modified_date := ("d"),
        processed_date := ("p"), chunks_count := 1, content_hash := ("h") })] }

/-- C4 (counterexample): for a file that IS present in the store but whose
`os.stat` raises, `is_processed` and `is_updated` both return false while the
file is not "new" either — it classifies as NONE of
{new, processed-unchanged, updated}, so the claimed "exactly one" trichotomy
fails for that stat outcome. -/
theorem c4_trichotomy_fails_on_stat_error :
    FileTracker.is_new c4State ("f.txt") = false ∧
    (FileTracker.is_processed c4State ("f.txt") (Except.error PyExn.oserror)).2 = false ∧
    (FileTracker.is_updated c4State ("f.txt") (Except.error PyExn.oserror)).2 = false ∧
    exactlyOne3 (FileTracker.is_new c4State ("f.txt"))
      ((FileTracker.is_processed c4State ("f.txt") (Except.error PyExn.oserror)).2)
      ((FileTracker.is_updated c4State ("f.txt") (Except.error PyExn.oserror)).2) = false :=
  ⟨by decide, by decide, by decide, by decide⟩

/-- C4 (amended): `is_processed` and `is_updated` are never both true (the
mutual-exclusion half of the claim holds unconditionally); and whenever the
stat call succeeds — or the file is absent from the store — exactly one of
{new, processed-unchanged, updated} holds.  Only a tracked file whose stat
raises falls outside the trichotomy (both predicates degrade to false). -/
theorem c4_mutual_exclusion_and_guarded_trichotomy (st : FileTracker) (p : String)
    (stat : Except PyExn FileInfo) :
    (((FileTracker.is_processed st p stat).2 && (FileTracker.is_updated st p stat).2)
      = false) ∧
    (exOk stat = true ∨ FileTracker.is_new st p = true →
      exactlyOne3 (FileTracker.is_new st p)
        ((FileTracker.is_processed st p stat).2)
        ((FileTracker.is_updated st p stat).2) = true) := by
  unfold FileTracker.is_processed FileTracker.is_updated FileTracker.is_new
  cases hd : dictGet st.processed_files (basename p) with
  | none =>
    refine ⟨by simp, fun _ => ?_⟩
    simp [exactlyOne3]
  | some stored =>
    cases stat with
    | error e =>
      refine ⟨by simp, fun h => ?_⟩
      rcases h with h | h
      · simp [exOk] at h
      · simp at h
    | ok cur =>
      refine ⟨?_, fun _ => ?_⟩
      · cases hc : (cur.size != stored.size || cur.modified_time != stored.modified_time)
          <;> simp [hc]
      · cases hc : (cur.size != stored.size || cur.modified_time != stored.modified_time)
          <;> simp [exactlyOne3, hc]

/-- C4 witness: a successful stat at the tracked file of `c4State` — the file
classifies as exactly one of the three classes (processed-unchanged here). -/
theorem c4_mutual_exclusion_and_guarded_trichotomy_witness :
    exOk ((Except.ok c4Info : Except PyExn FileInfo)) = true ∧
    exactlyOne3 (FileTracker.is_new c4State ("f.txt"))
      ((FileTracker.is_processed c4State ("f.txt") (Except.ok c4Info)).2)
      ((FileTracker.is_updated c4State ("f.txt") (Except.ok c4Info)).2) = true :=
  ⟨rfl, (c4_mutual_exclusion_and_guarded_trichotomy c4State ("f.txt")
    (Except.ok c4Info)).2 (Or.inl rfl)⟩

theorem dictGet_dictInsert_ne {β : Type} (k kn : String) (v : β) :
    ∀ m : List (String × β), kn ≠ k →
      dictGet (dictInsert m kn v) k = dictGet m k
  | [], h => by simp [dictInsert, dictGet, h]
  | kv :: rest, h => by
    by_cases hk : kv.1 = kn
    · simp only [dictInsert, if_pos hk, dictGet, if_neg h, if_neg (hk ▸ h)]
    · simp only [dictInsert, if_neg hk, dictGet]
      by_cases hk2 : kv.1 = k
      · simp [hk2]
      · simp only [if_neg hk2]
        exact dictGet_dictInsert_ne k kn v rest h

theorem dictGet_dictInsert_self {β : Type} (k : String) (v : β) :
    ∀ m : List (String × β), dictGet (dictInsert m k v) k = some v
  | [] => by simp [dictInsert, dictGet]
  | kv :: rest => by
    by_cases hk : kv.1 = k
    · simp [dictInsert, hk, dictGet]
    · simp only [dictInsert, if_neg hk, dictGet, if_neg hk]
      exact dictGet_dictInsert_self k v rest

theorem pyDictUpdate_get_notin {β : Type} (k : String) :
    ∀ (meta m : List (String × β)), (∀ kv ∈ meta, kv.1 ≠ k) →
      dictGet (pyDictUpdate m meta) k = dictGet m k
  | [], m, _ => rfl
  | kv :: rest, m, h => by
    have hrest : ∀ kv2 ∈ rest, kv2.1 ≠ k := fun kv2 h2 =>
      h kv2 (List.mem_cons_of_mem _ h2)
    have hk : kv.1 ≠ k := h kv (List.mem_cons_self _ _)
    calc dictGet (pyDictUpdate (dictInsert m kv.1 kv.2) rest) k
        = dictGet (dictInsert m kv.1 kv.2) k :=
          pyDictUpdate_get_notin k rest (dictInsert m kv.1 kv.2) hrest
      _ = dictGet m k := dictGet_dictInsert_ne k kv.1 kv.2 m hk

theorem pyDictUpdate_get_mem {β : Type} (k : String) (v : β) :
    ∀ (meta m : List (String × β)), (meta.map Prod.fst).Nodup →
      (k, v) ∈ meta → dictGet (pyDictUpdate m meta) k = some v
  | [], m, _, hmem => by simp at hmem
  | kv :: rest, m, hnodup, hmem => by
    rw [List.map_cons, List.nodup_cons] at hnodup
    rcases List.mem_cons.mp hmem with hkv | hkv
    · have hk1 : kv.1 = k := by rw [← hkv]
      have hknotin : ∀ kv2 ∈ rest, kv2.1 ≠ k := by
        intro kv2 h2 hk2
        apply hnodup.1
        rw [hk1, ← hk2]
        exact List.mem_map_of_mem Prod.fst h2
      calc dictGet (pyDictUpdate (dictInsert m kv.1 kv.2) rest) k
          = dictGet (dictInsert m kv.1 kv.2) k :=
            pyDictUpdate_get_notin k rest _ hknotin
        _ = some v := by
            rw [← hkv]
            exact dictGet_dictInsert_self k v m
    · exact pyDictUpdate_get_mem k v rest (dictInsert m kv.1 kv.2) hnodup.2 hkv

theorem enumFromN_getElem {α : Type} :
    ∀ (l : List α) (n i : Nat), (enumFromN n l)[i]? = l[i]?.map (fun a => (n + i, a))
  | [], n, i => by simp [enumFromN]
  | a :: as, n, 0 => by simp [enumFromN]
  | a :: as, n, i + 1 => by
    simp only [enumFromN, List.getElem?_cons_succ]
    rw [enumFromN_getElem as (n + 1) i]
    have : n + 1 + i = n + (i + 1) := by omega
    rw [this]

theorem enumFromN_length {α : Type} :
    ∀ (l : List α) (n : Nat), (enumFromN n l).length = l.length
  | [], _ => rfl
  | a :: as, n => by simp [enumFromN, enumFromN_length as (n + 1)]

/-- C8 (counterexample): `chunk_data.update(metadata)` OVERWRITES the
reserved keys: with caller metadata `{"chunk_index": 99}` the single record
of a two-character input reports `chunk_index = 99` instead of `0`, and
`0 ≤ chunkIndex < totalChunks` fails (`99 ≥ 1`), refuting the claim's "for
every metadata map". -/
theorem c8_caller_metadata_overwrites_index :
    TextChunker.chunk_text (TextChunker.init 1000 200) (("hi").toList)
      [(("chunk_index"), PyVal.n 99)] =
      Except.ok [[(("text"), PyVal.s (("hi").toList)), (("chunk_index"), PyVal.n 99),
        (("total_chunks"), PyVal.n 1)]] ∧
    dictGet [(("text"), PyVal.s (("hi").toList)), (("chunk_index"), PyVal.n 99),
        (("total_chunks"), PyVal.n 1)] (("chunk_index")) = some (PyVal.n 99) ∧
    some (PyVal.n 99) ≠ some (PyVal.n 0) ∧
    ¬ 99 < 1 :=
  ⟨by decide, by decide, by decide, by decide⟩

/-- C8 (amended): provided the caller metadata uses none of the reserved keys
`text`, `chunk_index`, `total_chunks` (and has no duplicate keys), every
record `i` of `chunk_text` carries `chunk_index = i`, all records carry
`total_chunks` equal to the length of the returned sequence,
`0 ≤ i < totalChunks` holds, and every caller metadata pair is present in
every record.  When a reserved key IS supplied, `dict.update` overwrites the
base field (see the counterexample). -/
theorem c8_chunk_records_indexed
    (c : TextChunker) (text : List Char) (metadata : List (String × PyVal))
    (recs : List (List (String × PyVal)))
    (hkeys : ∀ kv ∈ metadata, kv.1 ≠ ("text") ∧ kv.1 ≠ ("chunk_index") ∧
      kv.1 ≠ ("total_chunks"))
    (hnodup : (metadata.map Prod.fst).Nodup)
    (hok : TextChunker.chunk_text c text metadata = Except.ok recs) :
    ∀ i, i < recs.length →
      ∃ rcd, recs[i]? = some rcd ∧
        dictGet rcd (("chunk_index")) = some (PyVal.n i) ∧
        dictGet rcd (("total_chunks")) = some (PyVal.n recs.length) ∧
        ∀ kv ∈ metadata, dictGet rcd kv.1 = some kv.2 := by
  unfold TextChunker.chunk_text at hok
  cases hsp : TextChunker.split_text c text with
  | error e =>
    rw [hsp] at hok
    simp [Except.map] at hok
  | ok chunks =>
    rw [hsp] at hok
    simp only [Except.map] at hok
    injection hok with hok
    intro i hi
    have hlenrecs : recs.length = chunks.length := by
      rw [← hok]
      simp [enumFromN_length]
    have hic : i < chunks.length := by omega
    obtain ⟨ch, hch⟩ : ∃ ch, chunks[i]? = some ch :=
      ⟨chunks[i], List.getElem?_eq_getElem hic⟩
    have hbase : ∀ j : Nat,
        dictGet [(("text"), PyVal.s ch), (("chunk_index"), PyVal.n j),
          (("total_chunks"), PyVal.n chunks.length)] (("chunk_index")) =
          some (PyVal.n j) := by
      intro j
      simp [dictGet]
    refine ⟨(if metadata.isEmpty then
        [(("text"), PyVal.s ch), (("chunk_index"), PyVal.n (0 + i)),
         (("total_chunks"), PyVal.n chunks.length)]
      else pyDictUpdate
        [(("text"), PyVal.s ch), (("chunk_index"), PyVal.n (0 + i)),
         (("total_chunks"), PyVal.n chunks.length)] metadata), ?_, ?_, ?_, ?_⟩
    · rw [← hok]
      simp [List.getElem?_map, enumFromN_getElem, hch]
    · rw [Nat.zero_add]
      by_cases hm : metadata.isEmpty
      · rw [if_pos hm]
        exact hbase i
      · rw [if_neg hm]
        rw [pyDictUpdate_get_notin (("chunk_index")) metadata _
          (fun kv hkv => (hkeys kv hkv).2.1)]
        exact hbase i
    · rw [hlenrecs]
      have hb : dictGet [(("text"), PyVal.s ch), (("chunk_index"), PyVal.n (0 + i)),
          (("total_chunks"), PyVal.n chunks.length)] (("total_chunks")) =
          some (PyVal.n chunks.length) := by
        simp [dictGet]
      by_cases hm : metadata.isEmpty
      · rw [if_pos hm]
        exact hb
      · rw [if_neg hm]
        rw [pyDictUpdate_get_notin (("total_chunks")) metadata _
          (fun kv hkv => (hkeys kv hkv).2.2)]
        exact hb
    · intro kv hkv
      have hm : ¬ metadata.isEmpty := by
        cases metadata with
        | nil => simp at hkv
        | cons a as => simp [List.isEmpty]
      rw [if_neg hm]
      exact pyDictUpdate_get_mem kv.1 kv.2 metadata _ hnodup hkv

/-- C8 witness: one non-reserved metadata key on a one-chunk input. -/
theorem c8_chunk_records_indexed_witness :
    (∀ kv ∈ [(("source"), PyVal.n 7)], kv.1 ≠ ("text") ∧ kv.1 ≠ ("chunk_index") ∧
      kv.1 ≠ ("total_chunks")) ∧
    (∃ rcd, ([[(("text"), PyVal.s (("hi").toList)), (("chunk_index"), PyVal.n 0),
        (("total_chunks"), PyVal.n 1), (("source"), PyVal.n 7)]]
        : List (List (String × PyVal)))[0]? = some rcd ∧
      dictGet rcd (("chunk_index")) = some (PyVal.n 0) ∧
      dictGet rcd (("total_chunks")) = some (PyVal.n 1) ∧
      ∀ kv ∈ [(("source"), PyVal.n 7)], dictGet rcd kv.1 = some kv.2) :=
  ⟨by decide,
    c8_chunk_records_indexed (TextChunker.init 1000 200) (("hi").toList)
      [(("source"), PyVal.n 7)]
      [[(("text"), PyVal.s (("hi").toList)), (("chunk_index"), PyVal.n 0),
        (("total_chunks"), PyVal.n 1), (("source"), PyVal.n 7)]]
      (by decide) (by decide) (by decide) 0 (by decide)⟩

theorem isEmpty_false_of_length_pos {α : Type} (l : List α) (h : 0 < l.length) :
    l.isEmpty = false := by
  cases l with
  | nil => simp at h
  | cons a as => rfl

/-- C9 (counterexample): on a separator-free run of 25 characters with
`chunk_size = 10, chunk_overlap = 2` the pre-overlap slices have lengths
10, 10, 9, 1 — NOT all of length `maxChunkSize`, and the final consecutive
pair shares only the single character `y`, not 2. -/
theorem c9_last_slice_short :
    TextChunker.preChunks (TextChunker.init 10 2)
      (("abcdefghijklmnopqrstuvwxy").toList) =
      Except.ok [(("abcdefghij").toList), (("ijklmnopqr").toList),
        (("qrstuvwxy").toList), (("y").toList)] ∧
    ((("qrstuvwxy").toList)).length = 9 ∧
    ((("y").toList)).length = 1 ∧
    ¬ ((("y").toList)).length = 10 :=
  ⟨by decide, by decide, by decide, by decide⟩

/-- C9 (amended): on any separator-free input of 25 characters with
`chunk_size = 10, chunk_overlap = 2` the character fallback emits slices at
start indices 0, 8, 16, 24 (stride 8), of lengths 10, 10, 9 and 1 — the last
two shorter than `maxChunkSize`; the slices cover the whole input; each
slice begins with the last 2 characters of its predecessor EXCEPT the final
one, which overlaps its predecessor in just 1 character; the returned
sequence is then the overlap-stitched one (later chunks prefixed with the
previous original slice's last 2 characters and a space). -/
theorem c9_fallback_stride_slices (text : List Char)
    (hlen : text.length = 25)
    (hnosep : ∀ s ∈ pySeparators, s ≠ [] → containsSeq s text = false) :
    TextChunker.preChunks (TextChunker.init 10 2) text =
      Except.ok [text.take 10, (text.drop 8).take 10, (text.drop 16).take 10,
        (text.drop 24).take 10] ∧
    ((text.take 10).length = 10 ∧ ((text.drop 8).take 10).length = 10 ∧
      ((text.drop 16).take 10).length = 9 ∧ ((text.drop 24).take 10).length = 1) ∧
    text.take 10 ++ ((text.drop 8).take 10).drop 2 ++ ((text.drop 16).take 10).drop 2
      = text ∧
    (((text.drop 8).take 10).take 2 = (text.take 10).drop 8 ∧
      ((text.drop 16).take 10).take 2 = ((text.drop 8).take 10).drop 8 ∧
      (text.drop 24).take 10 = ((text.drop 16).take 10).drop 8) ∧
    TextChunker.split_text (TextChunker.init 10 2) text =
      Except.ok [text.take 10,
        (text.take 10).drop 8 ++ (' ' :: ((text.drop 8).take 10)),
        ((text.drop 8).take 10).drop 8 ++ (' ' :: ((text.drop 16).take 10)),
        ((text.drop 16).take 10).drop 7 ++ (' ' :: ((text.drop 24).take 10))] := by
  have h1 : containsSeq (['\n', '\n']) text = false := hnosep _ (by decide) (by decide)
  have h2 : containsSeq (['\n']) text = false := hnosep _ (by decide) (by decide)
  have h3 : containsSeq (['.', ' ']) text = false := hnosep _ (by decide) (by decide)
  have h4 : containsSeq (['!', ' ']) text = false := hnosep _ (by decide) (by decide)
  have h5 : containsSeq (['?', ' ']) text = false := hnosep _ (by decide) (by decide)
  have h6 : containsSeq ([' ']) text = false := hnosep _ (by decide) (by decide)
  have hcs : chooseSep pySeparators text = none := by
    simp [pySeparators, chooseSep, h1, h2, h3, h4, h5, h6]
  have hl0 : (text.take 10).length = 10 := by
    simp [hlen]
  have hl1 : ((text.drop 8).take 10).length = 10 := by
    simp [hlen]
  have hl2 : ((text.drop 16).take 10).length = 9 := by
    simp [hlen]
  have hl3 : ((text.drop 24).take 10).length = 1 := by
    simp [hlen]
  have hcore : splitCore (TextChunker.init 10 2) (text.length + 1) text =
      Except.ok [text.take 10, (text.drop 8).take 10, (text.drop 16).take 10,
        (text.drop 24).take 10] := by
    rw [splitCore]
    simp only [TextChunker.init]
    rw [if_neg (by omega)]
    simp only [hcs]
    simp only [charFallback]
    rw [if_neg (by norm_num)]
    rw [hlen]
    have hrange : List.range ((25 + (10 - 2) - 1) / (10 - 2)) = [0, 1, 2, 3] := by decide
    rw [hrange]
    have he0 : (text.take 10).isEmpty = false :=
      isEmpty_false_of_length_pos _ (by omega)
    have he1 : ((text.drop 8).take 10).isEmpty = false :=
      isEmpty_false_of_length_pos _ (by omega)
    have he2 : ((text.drop 16).take 10).isEmpty = false :=
      isEmpty_false_of_length_pos _ (by omega)
    have he3 : ((text.drop 24).take 10).isEmpty = false :=
      isEmpty_false_of_length_pos _ (by omega)
    simp [List.filter, he0, he1, he2, he3]
  have hpre : TextChunker.preChunks (TextChunker.init 10 2) text =
      Except.ok [text.take 10, (text.drop 8).take 10, (text.drop 16).take 10,
        (text.drop 24).take 10] := hcore
  have hcov : text.take 10 ++ ((text.drop 8).take 10).drop 2 ++
      ((text.drop 16).take 10).drop 2 = text := by
    rw [List.drop_take, List.drop_drop, List.drop_take, List.drop_drop]
    simp only [show (10 : Nat) - 2 = 8 by norm_num, show (8 : Nat) + 2 = 10 by norm_num,
      show (16 : Nat) + 2 = 18 by norm_num]
    have e1 : text.take 10 ++ List.take 8 (text.drop 10) = text.take 18 := by
      show _ = text.take (10 + 8)
      rw [List.take_add]
    rw [e1]
    have e2 : text.take 18 ++ List.take 8 (text.drop 18) = text.take 26 := by
      show _ = text.take (18 + 8)
      rw [List.take_add]
    rw [e2]
    exact List.take_of_length_le (by omega)
  have hov1 : ((text.drop 8).take 10).take 2 = (text.take 10).drop 8 := by
    rw [List.take_take, List.drop_take]
    norm_num
  have hov2 : ((text.drop 16).take 10).take 2 = ((text.drop 8).take 10).drop 8 := by
    rw [List.take_take, List.drop_take, List.drop_drop]
    norm_num
  have hov3 : (text.drop 24).take 10 = ((text.drop 16).take 10).drop 8 := by
    rw [List.drop_take, List.drop_drop]
    show (text.drop 24).take 10 = (text.drop 24).take 2
    have h24 : (text.drop 24).length = 1 := by simp [hlen]
    rw [List.take_of_length_le (by omega), List.take_of_length_le (by omega)]
  have hsplit : TextChunker.split_text (TextChunker.init 10 2) text =
      Except.ok [text.take 10,
        (text.take 10).drop 8 ++ (' ' :: ((text.drop 8).take 10)),
        ((text.drop 8).take 10).drop 8 ++ (' ' :: ((text.drop 16).take 10)),
        ((text.drop 16).take 10).drop 7 ++ (' ' :: ((text.drop 24).take 10))] := by
    unfold TextChunker.split_text
    rw [hcore]
    simp only [Except.map]
    unfold overlapPass
    rw [if_pos (by exact ⟨by decide, by simp⟩)]
    simp only [List.zip_cons_cons, List.zip_nil_right, List.map_cons, List.map_nil]
    simp [TextChunker.init, hl0, hl1, hl2]
  exact ⟨hpre, ⟨hl0, hl1, hl2, hl3⟩, hcov, ⟨hov1, hov2, hov3⟩, hsplit⟩

/-- C9 witness: the amended statement at the concrete 25-letter run. -/
theorem c9_fallback_stride_slices_witness :
    ((("abcdefghijklmnopqrstuvwxy").toList)).length = 25 ∧
    TextChunker.preChunks (TextChunker.init 10 2)
      (("abcdefghijklmnopqrstuvwxy").toList) =
      Except.ok [(("abcdefghijklmnopqrstuvwxy").toList).take 10,
        ((("abcdefghijklmnopqrstuvwxy").toList).drop 8).take 10,
        ((("abcdefghijklmnopqrstuvwxy").toList).drop 16).take 10,
        ((("abcdefghijklmnopqrstuvwxy").toList).drop 24).take 10] :=
  ⟨by decide,
    (c9_fallback_stride_slices (("abcdefghijklmnopqrstuvwxy").toList)
      (by decide) (by decide)).1⟩

